import Mathlib

/-!
Verification of the persistent telemetry parameter store of the
drjdlarson/ua_spaaro flight code, file src/flight_code/flight/telem.cc.

The store keeps N (= NUM_TELEM_PARAMS) 4-byte parameter values in a
fixed-layout EEPROM record:

  offset 0     : 3 magic header bytes 66 70 83 (the characters B F S)
  offset 3     : 4*N parameter bytes, parameter i at offset 3 + 4*i
  offset 3+4*N : 2 checksum bytes, big-endian 16-bit Fletcher checksum
                 computed over the bytes in the range 0 ..< 3+4*N

Buffers are shallowly embedded as `List Nat` of byte values; the EEPROM
device additionally records a trace of the `EEPROM.write` calls issued,
so that frame claims (which bytes are written, or that no write occurs)
can be stated exactly.  The global mutable state of the anonymous
namespace of telem.cc (param_buf, chk_computed, chk_read, chk_buf,
param_idx_) is carried in a `GlobalState` record, together with the
EEPROM device, the emitted MsgInfo/MsgWarning events and the parameter
arrays pushed to the MAV Link telemetry object.  The TelemData object
pointed to by `ptr` is represented by its `param` member, as the raw
4*N bytes of its N float parameters (every access the store performs on
it is a byte-level memcpy or a whole-float assignment, so floats are
carried as their 4-byte images and no floating-point arithmetic is
needed).  A null `ptr` is `none`.
-/

namespace UaSpaaro

/-- Write the byte list `vs` into `l` starting at offset `off`
(out-of-range positions are dropped, as `List.set` is). -/
def writeBytes : List Nat → Nat → List Nat → List Nat
  | l, _, [] => l
  | l, off, v :: vs => writeBytes (l.set off v) (off + 1) vs

/-- Read `n` bytes of `l` starting at offset `off` (missing bytes read 0). -/
def readBytes (l : List Nat) (off n : Nat) : List Nat :=
  (List.range n).map (fun i => l.getD (off + i) 0)

/-- Modelled from the spec: one step of the Checksum Engine.  The engine
(class bfs::Fletcher16 of the external checksum library, whose source is
not part of this repository) is described by the spec as a 16-bit
Fletcher-style checksum over a byte span: a pure, deterministic function.
This is the textbook Fletcher-16 step: both running sums are reduced
modulo 255 as each byte is folded in. -/
def fletcher16Step : Nat × Nat → Nat → Nat × Nat
  | (s1, s2), b => ((s1 + b) % 255, (s2 + (s1 + b) % 255) % 255)

/-- Modelled from the spec: the Checksum Engine operation
compute(bytes) -> uint16, the 16-bit Fletcher checksum of a byte list
(bfs::Fletcher16::Compute applied to a buffer prefix).  The second sum
is the high byte, the first sum the low byte. -/
def fletcher16 (bs : List Nat) : Nat :=
  let p := bs.foldl fletcher16Step (0, 0)
  p.2 * 256 + p.1

/-- PARAM_STORE_SIZE of telem.cc (lines 51-54):
sizeof header + NUM_TELEM_PARAMS * sizeof float + sizeof uint16. -/
def PARAM_STORE_SIZE (N : Nat) : Nat := 3 + 4 * N + 2

/-- The header-and-parameters prefix of a fresh (reset) record:
the magic bytes B F S followed by 4*N zero parameter bytes. -/
def freshBody (N : Nat) : List Nat := 66 :: 70 :: 83 :: List.replicate (4 * N) 0

/-- The record persisted by the initialize/recover path of TelemInit:
magic header, all parameters zero, matching big-endian checksum. -/
def freshRecord (N : Nat) : List Nat :=
  freshBody N ++
    [fletcher16 (freshBody N) / 256 % 256, fletcher16 (freshBody N) % 256]

/-- The mutable state of telem.cc's anonymous namespace that the
parameter-store code touches, together with the external devices:
the EEPROM byte contents, the trace of EEPROM.write calls issued, the
MsgInfo/MsgWarning strings emitted, and the parameter arrays pushed to
the MAV Link object via telem_.params. -/
structure GlobalState where
  eeprom : List Nat
  eepromWrites : List (Nat × Nat)
  param_buf : List Nat
  chk_computed : Nat
  chk_read : Nat
  chk_buf : List Nat
  param_idx : Int
  msgs : List String
  telem_params : List (List Nat)
deriving DecidableEq

/-- Issue a sequence of EEPROM.write(addr, value) calls: each updates the
device byte at addr and is recorded in the write trace. -/
def eepromWriteSeq (gs : GlobalState) (ws : List (Nat × Nat)) : GlobalState :=
  { gs with
    eeprom := ws.foldl (fun e w => e.set w.1 w.2) gs.eeprom,
    eepromWrites := gs.eepromWrites ++ ws }

/-- The write sequence of the full-record persist loop
(telem.cc lines 102-104 and 136-138): EEPROM.write(i, param_buf[i]) for
i = 0 .. PARAM_STORE_SIZE-1. -/
def recordWrites (N : Nat) (nb : List Nat) : List (Nat × Nat) :=
  (List.range (PARAM_STORE_SIZE N)).map (fun i => (i, nb.getD i 0))

/-- The in-place reset of param_buf shared by the two recovery branches of
TelemInit (telem.cc lines 86-100 and 120-134): set the header bytes, zero
the 4*N parameter bytes, compute the checksum over the first 3+4*N bytes
and store it big-endian in the last two bytes. -/
def resetBuf (N : Nat) (buf : List Nat) : List Nat :=
  let b1 := ((buf.set 0 66).set 1 70).set 2 83
  let b2 := writeBytes b1 3 (List.replicate (4 * N) 0)
  let chk := fletcher16 (b2.take (3 + 4 * N))
  (b2.set (PARAM_STORE_SIZE N - 2) (chk / 256 % 256)).set
    (PARAM_STORE_SIZE N - 1) (chk % 256)

/-- The three load-time states of the parameter store (spec section 4.3). -/
inductive LoadResult where
  | Uninitialized
  | Corrupted
  | Valid
deriving DecidableEq

/-- The classification TelemInit performs on the record read from EEPROM:
Uninitialized when the three header bytes differ from B F S
(telem.cc lines 81-83), otherwise Corrupted when the checksum freshly
computed over the first 3+4*N bytes differs from the stored big-endian
16-bit checksum (lines 109-116), otherwise Valid. -/
def classifyRecord (N : Nat) (buf : List Nat) : LoadResult :=
  if buf.getD 0 0 != 66 || buf.getD 1 0 != 70 || buf.getD 2 0 != 83 then
    .Uninitialized
  else if fletcher16 (buf.take (3 + 4 * N)) !=
      buf.getD (PARAM_STORE_SIZE N - 2) 0 * 256 +
        buf.getD (PARAM_STORE_SIZE N - 1) 0 then
    .Corrupted
  else
    .Valid

/-- TelemInit (telem.cc lines 65-157), restricted to the parameter-store
work it performs; the pure configuration calls forwarded verbatim to the
MAV Link object (serial buses, stream periods, mission/fence/rally
pointers) touch no store state and are not represented.  `ptr` is the
TelemData pointer, carried as the 4*N raw bytes of its param array. -/
def TelemInit (N : Nat) (gs : GlobalState) (ptr : Option (List Nat)) :
    GlobalState × Option (List Nat) :=
  match ptr with
  | none => (gs, none)        -- line 66: if (!ptr) return
  | some prm =>
    -- lines 76-78: load the parameter record from EEPROM into param_buf
    let buf := readBytes gs.eeprom 0 (PARAM_STORE_SIZE N)
    -- lines 81-83: check the header bytes against B F S
    if buf.getD 0 0 != 66 || buf.getD 1 0 != 70 || buf.getD 2 0 != 83 then
      -- lines 84-105: not initialized; reset param_buf and persist it
      let nb := resetBuf N buf
      let chk := fletcher16 (nb.take (3 + 4 * N))
      let gs1 := eepromWriteSeq
        { gs with
          msgs := gs.msgs ++
            ["Parameter storage not initialized, initializing..."],
          param_buf := nb,
          chk_computed := chk,
          chk_buf := [chk / 256 % 256, chk % 256] }
        (recordWrites N nb)
      ({ gs1 with msgs := gs1.msgs ++ ["done.\n"] }, some prm)
    else
      -- lines 109-115: recompute the checksum and read the stored one
      let chk := fletcher16 (buf.take (3 + 4 * N))
      let b0 := buf.getD (PARAM_STORE_SIZE N - 2) 0
      let b1 := buf.getD (PARAM_STORE_SIZE N - 1) 0
      let rd := b0 * 256 + b1
      if chk != rd then
        -- lines 118-139: corrupted; reset param_buf and persist it
        let nb := resetBuf N buf
        let chk2 := fletcher16 (nb.take (3 + 4 * N))
        let gs1 := eepromWriteSeq
          { gs with
            msgs := gs.msgs ++ ["Parameter storage corrupted, resetting..."],
            param_buf := nb,
            chk_computed := chk2,
            chk_read := rd,
            chk_buf := [chk2 / 256 % 256, chk2 % 256] }
          (recordWrites N nb)
        ({ gs1 with msgs := gs1.msgs ++ ["done.\n"] }, some prm)
      else
        -- lines 142-145: valid; decode the parameter bytes into
        -- ptr->param and push them to the MAV Link object
        let prm2 := writeBytes prm 0 (readBytes buf 3 (4 * N))
        ({ gs with
           param_buf := buf,
           chk_computed := chk,
           chk_read := rd,
           chk_buf := [b0, b1],
           telem_params := gs.telem_params ++ [prm2] }, some prm2)

/-- The checksum recomputed by the update path (telem.cc lines 278-280):
the Fletcher checksum of the first 3+4*N bytes of param_buf after the
changed float's bytes have been copied in (lines 273-276). -/
def updChk (N : Nat) (pb prm v : List Nat) (i : Nat) : Nat :=
  fletcher16 ((writeBytes pb (3 + 4 * i)
    (readBytes (writeBytes prm (4 * i) v) (4 * i) 4)).take (3 + 4 * N))

/-- param_buf after the in-range update path (telem.cc lines 273-284):
the 4 bytes of parameter field i are replaced by the bytes of the updated
float and the recomputed checksum is stored big-endian in the last two
bytes. -/
def updBuf (N : Nat) (pb prm v : List Nat) (i : Nat) : List Nat :=
  let pb1 := writeBytes pb (3 + 4 * i)
    (readBytes (writeBytes prm (4 * i) v) (4 * i) 4)
  let chk := fletcher16 (pb1.take (3 + 4 * N))
  (pb1.set (PARAM_STORE_SIZE N - 2) (chk / 256 % 256)).set
    (PARAM_STORE_SIZE N - 1) (chk % 256)

/-- The write sequence issued by the update path (telem.cc lines 286-292):
EEPROM.write of the 4 bytes of parameter field i, then of the 2 checksum
bytes, each taking its value from the updated param_buf. -/
def updWrites (N : Nat) (pb2 : List Nat) (i : Nat) : List (Nat × Nat) :=
  ((List.range 4).map fun j =>
    (3 + 4 * i + j, pb2.getD (3 + 4 * i + j) 0)) ++
  [(PARAM_STORE_SIZE N - 2, pb2.getD (PARAM_STORE_SIZE N - 2) 0),
   (PARAM_STORE_SIZE N - 1, pb2.getD (PARAM_STORE_SIZE N - 1) 0)]

/-- The parameter-update path of TelemUpdate (telem.cc lines 158-159 and
270-293); the field-by-field telemetry encoding between those lines reads
flight data only and touches no store state.  `updIdx` is the value
returned by telem_.updated_param() and `v` the 4 bytes of the float
telem_.param(updIdx) reported by the MAV Link object. -/
def TelemUpdate (N : Nat) (gs : GlobalState) (ptr : Option (List Nat))
    (updIdx : Int) (v : List Nat) : GlobalState × Option (List Nat) :=
  match ptr with
  | none => (gs, none)        -- line 159: if (!ptr) return
  | some prm =>
    -- line 270: param_idx_ = telem_.updated_param()
    let gs0 := { gs with param_idx := updIdx }
    if 0 ≤ updIdx then
      let i := updIdx.toNat
      -- line 273: ptr->param[param_idx_] = telem_.param(param_idx_)
      let prm1 := writeBytes prm (4 * i) v
      -- lines 275-284: update param_buf and its checksum bytes
      let pb2 := updBuf N gs0.param_buf prm v i
      let chk := updChk N gs0.param_buf prm v i
      -- lines 286-292: write back the 4 changed parameter bytes and the
      -- 2 checksum bytes
      let gs1 := eepromWriteSeq
        { gs0 with
          param_buf := pb2,
          chk_computed := chk,
          chk_buf := [chk / 256 % 256, chk % 256] } (updWrites N pb2 i)
      (gs1, some prm1)
    else
      (gs0, some prm)

/-- param_buf mirrors the persisted record: the invariant the store
re-establishes at the end of every TelemInit branch. -/
def BufMirror (N : Nat) (gs : GlobalState) : Prop :=
  ∀ j, j < PARAM_STORE_SIZE N → gs.param_buf.getD j 0 = gs.eeprom.getD j 0

instance decidableBufMirror (N : Nat) (gs : GlobalState) :
    Decidable (BufMirror N gs) :=
  inferInstanceAs (Decidable (∀ j, j < PARAM_STORE_SIZE N →
    gs.param_buf.getD j 0 = gs.eeprom.getD j 0))

/-- The two bytes at offset 3+4*N hold, big-endian, the checksum computed
over exactly the bytes 0 ..< 3+4*N (spec section 6 record layout). -/
def chkConsistent (N : Nat) (l : List Nat) : Prop :=
  l.getD (3 + 4 * N) 0 = fletcher16 (l.take (3 + 4 * N)) / 256 % 256 ∧
  l.getD (3 + 4 * N + 1) 0 = fletcher16 (l.take (3 + 4 * N)) % 256

/-- The record bytes TelemInit reads from the EEPROM device into
param_buf (telem.cc lines 76-78). -/
def loadedBuf (N : Nat) (gs : GlobalState) : List Nat :=
  readBytes gs.eeprom 0 (PARAM_STORE_SIZE N)

/-- Concrete N = 1 store state holding a freshly reset, valid record,
as left by a completed TelemInit: device and param_buf both hold the
fresh record (checksum 5851 = 22 * 256 + 219). -/
def gsFresh : GlobalState :=
  { eeprom := freshRecord 1, eepromWrites := [], param_buf := freshRecord 1,
    chk_computed := 5851, chk_read := 5851, chk_buf := [22, 219],
    param_idx := -1, msgs := [], telem_params := [] }

/-- Concrete N = 1 store state over a blank (all-zero) EEPROM device:
the header check fails on it. -/
def gsZero : GlobalState :=
  { eeprom := List.replicate 9 0, eepromWrites := [],
    param_buf := List.replicate 9 0, chk_computed := 0, chk_read := 0,
    chk_buf := [], param_idx := -1, msgs := [], telem_params := [] }

/-- Concrete N = 1 store state whose device record has a valid header and
zero parameters but zeroed (hence mismatching) checksum bytes, while
param_buf holds the fresh record. -/
def gsStale : GlobalState :=
  { eeprom := [66, 70, 83, 0, 0, 0, 0, 0, 0], eepromWrites := [],
    param_buf := freshRecord 1, chk_computed := 0, chk_read := 0,
    chk_buf := [], param_idx := -1, msgs := [], telem_params := [] }

/-! ### Byte-buffer toolkit -/

theorem getD_set_ne (l : List Nat) (i j v : Nat) (h : i ≠ j) :
    (l.set i v).getD j 0 = l.getD j 0 := by
  simp [List.getD_eq_getElem?_getD, List.getElem?_set_ne h]

theorem getD_set_self (l : List Nat) (i v : Nat) (h : i < l.length) :
    (l.set i v).getD i 0 = v := by
  simp [List.getD_eq_getElem?_getD, List.getElem?_set_self, h]

theorem ext_getD (l₁ l₂ : List Nat) (hlen : l₁.length = l₂.length)
    (h : ∀ j, j < l₁.length → l₁.getD j 0 = l₂.getD j 0) : l₁ = l₂ := by
  refine List.ext_getElem hlen (fun j h₁ h₂ => ?_)
  have := h j h₁
  rwa [List.getD_eq_getElem?_getD, List.getD_eq_getElem?_getD,
    List.getElem?_eq_getElem h₁, List.getElem?_eq_getElem h₂] at this

theorem length_writeBytes (vs : List Nat) (l : List Nat) (off : Nat) :
    (writeBytes l off vs).length = l.length := by
  induction vs generalizing l off with
  | nil => rfl
  | cons v vs ih => simp [writeBytes, ih, List.length_set]

theorem getD_writeBytes_lt (vs : List Nat) (l : List Nat) (off j : Nat)
    (h : j < off) : (writeBytes l off vs).getD j 0 = l.getD j 0 := by
  induction vs generalizing l off with
  | nil => rfl
  | cons v vs ih =>
    rw [writeBytes, ih _ _ (by omega), getD_set_ne _ _ _ _ (by omega)]

theorem getD_writeBytes_ge (vs : List Nat) (l : List Nat) (off j : Nat)
    (h : off + vs.length ≤ j) : (writeBytes l off vs).getD j 0 = l.getD j 0 := by
  induction vs generalizing l off with
  | nil => rfl
  | cons v vs ih =>
    rw [writeBytes, ih _ _ (by simp at h ⊢; omega),
      getD_set_ne _ _ _ _ (by simp at h; omega)]

theorem getD_writeBytes_in (vs : List Nat) (l : List Nat) (off j : Nat)
    (h1 : off ≤ j) (h2 : j < off + vs.length) (h3 : j < l.length) :
    (writeBytes l off vs).getD j 0 = vs.getD (j - off) 0 := by
  induction vs generalizing l off with
  | nil => simp at h2; omega
  | cons v vs ih =>
    rw [writeBytes]
    rcases Nat.eq_or_lt_of_le h1 with rfl | hlt
    · rw [getD_writeBytes_lt _ _ _ _ (by omega), getD_set_self _ _ _ h3]
      simp
    · rw [ih _ _ (by omega) (by simp at h2 ⊢; omega) (by simpa using h3)]
      have : j - off = (j - (off + 1)) + 1 := by omega
      simp [this]

theorem length_readBytes (l : List Nat) (off n : Nat) :
    (readBytes l off n).length = n := by
  simp [readBytes]

theorem getD_readBytes (l : List Nat) (off n i : Nat) (h : i < n) :
    (readBytes l off n).getD i 0 = l.getD (off + i) 0 := by
  rw [readBytes, List.getD_eq_getElem?_getD, List.getElem?_map]
  simp [List.getElem?_range h]

theorem readBytes_take (l : List Nat) (off n k : Nat) (h : k ≤ n) :
    (readBytes l off n).take k = readBytes l off k := by
  simp [readBytes, ← List.map_take, List.take_range, Nat.min_eq_left h]

theorem writeBytes_full (l vs : List Nat) (h : vs.length = l.length) :
    writeBytes l 0 vs = vs := by
  refine ext_getD _ _ (by rw [length_writeBytes, h]) (fun j hj => ?_)
  rw [length_writeBytes] at hj
  rw [getD_writeBytes_in _ _ _ _ (Nat.zero_le _) (by omega) hj]
  simp

/-! ### Lemmas about the EEPROM write fold -/

theorem foldl_set_length (ws : List (Nat × Nat)) (e : List Nat) :
    (ws.foldl (fun l w => l.set w.1 w.2) e).length = e.length := by
  induction ws generalizing e with
  | nil => rfl
  | cons w ws ih => simp [ih, List.length_set]

theorem foldl_set_getD_notin (ws : List (Nat × Nat)) (e : List Nat) (j : Nat)
    (h : ∀ w ∈ ws, w.1 ≠ j) :
    (ws.foldl (fun l w => l.set w.1 w.2) e).getD j 0 = e.getD j 0 := by
  induction ws generalizing e with
  | nil => rfl
  | cons w ws ih =>
    rw [List.foldl_cons, ih _ (fun w hw => h w (by simp [hw])),
      getD_set_ne _ _ _ _ (h w (by simp))]

theorem foldl_set_rangeMap (n : Nat) (f : Nat → Nat) (e : List Nat) (j : Nat)
    (h : j < n) (h2 : j < e.length) :
    (((List.range n).map (fun i => (i, f i))).foldl
      (fun l w => l.set w.1 w.2) e).getD j 0 = f j := by
  induction n generalizing j with
  | zero => omega
  | succ n ih =>
    rw [List.range_succ, List.map_append, List.foldl_append]
    rcases Nat.lt_or_ge j n with hj | hj
    · rw [List.map_singleton, List.foldl_cons, List.foldl_nil,
        getD_set_ne _ _ _ _ (by omega), ih _ hj h2]
    · have hjn : j = n := by omega
      subst hjn
      rw [List.map_singleton, List.foldl_cons, List.foldl_nil,
        getD_set_self]
      rw [foldl_set_length]
      exact h2

theorem foldl_set_rangeMap_ge (n : Nat) (f : Nat → Nat) (e : List Nat) (j : Nat)
    (h : n ≤ j) :
    (((List.range n).map (fun i => (i, f i))).foldl
      (fun l w => l.set w.1 w.2) e).getD j 0 = e.getD j 0 := by
  refine foldl_set_getD_notin _ _ _ (fun w hw => ?_)
  simp only [List.mem_map, List.mem_range] at hw
  obtain ⟨i, hi, rfl⟩ := hw
  simpa using (by omega : i ≠ j)

/-! ### Fletcher checksum facts -/

theorem fletcher16_foldl_bounds (bs : List Nat) (p : Nat × Nat)
    (h1 : p.1 < 255) (h2 : p.2 < 255) :
    (bs.foldl fletcher16Step p).1 < 255 ∧ (bs.foldl fletcher16Step p).2 < 255 := by
  induction bs generalizing p with
  | nil => exact ⟨h1, h2⟩
  | cons b bs ih =>
    exact ih _ (Nat.mod_lt _ (by omega)) (Nat.mod_lt _ (by omega))

theorem fletcher16_lt (bs : List Nat) : fletcher16 bs < 65536 := by
  have := fletcher16_foldl_bounds bs (0, 0) (by omega) (by omega)
  rw [fletcher16]
  omega

theorem fletcher16_foldl_fst (bs : List Nat) (p : Nat × Nat) (h : p.1 < 255) :
    (bs.foldl fletcher16Step p).1 = (p.1 + bs.sum) % 255 := by
  induction bs generalizing p with
  | nil => simp [Nat.mod_eq_of_lt h]
  | cons b bs ih =>
    rw [List.foldl_cons, List.sum_cons]
    rw [ih _ (Nat.mod_lt _ (by omega))]
    show ((p.1 + b) % 255 + bs.sum) % 255 = _
    rw [Nat.add_mod, Nat.mod_mod_of_dvd _ dvd_rfl, ← Nat.add_mod,
      Nat.add_assoc]

theorem fletcher16_mod256 (bs : List Nat) :
    fletcher16 bs % 256 = bs.sum % 255 := by
  have hb := fletcher16_foldl_bounds bs (0, 0) (by omega) (by omega)
  have hf := fletcher16_foldl_fst bs (0, 0) (by omega)
  rw [fletcher16]
  rw [Nat.zero_add] at hf
  omega

theorem sum_set_add (l : List Nat) (p v : Nat) (h : p < l.length) :
    (l.set p v).sum + l.getD p 0 = l.sum + v := by
  induction l generalizing p with
  | nil => simp at h
  | cons a l ih =>
    cases p with
    | zero => simp [Nat.add_comm, Nat.add_left_comm]
    | succ p =>
      simp only [List.set_cons_succ, List.sum_cons, List.getD_cons_succ]
      have := ih p (by simpa using h)
      omega

set_option maxRecDepth 100000 in
/-- A single-bit flip of a byte changes its residue modulo 255 and keeps
it a byte (checked over all 256 byte values and all 8 bit positions). -/
theorem byte_flip_mod255 : ∀ b, b < 256 → ∀ k, k < 8 →
    (b ^^^ 2 ^ k) % 255 ≠ b % 255 ∧ b ^^^ 2 ^ k < 256 := by decide

/-- Flipping one bit of one byte changes the Fletcher-16 checksum:
the low checksum byte is the byte sum modulo 255, which moves by a
nonzero amount smaller than 255. -/
theorem fletcher16_set_flip_ne (l : List Nat) (p k : Nat) (hp : p < l.length)
    (hb : l.getD p 0 < 256) (hk : k < 8) :
    fletcher16 (l.set p (l.getD p 0 ^^^ 2 ^ k)) ≠ fletcher16 l := by
  intro heq
  have h256 : fletcher16 (l.set p (l.getD p 0 ^^^ 2 ^ k)) % 256 =
      fletcher16 l % 256 := by rw [heq]
  rw [fletcher16_mod256, fletcher16_mod256] at h256
  have hsum := sum_set_add l p (l.getD p 0 ^^^ 2 ^ k) hp
  have hflip := (byte_flip_mod255 (l.getD p 0) hb k hk).1
  omega

/-! ### More getD lemmas -/

theorem getD_append_lt (l₁ l₂ : List Nat) (j : Nat) (h : j < l₁.length) :
    (l₁ ++ l₂).getD j 0 = l₁.getD j 0 := by
  simp [List.getD_eq_getElem?_getD, List.getElem?_append, h]

theorem getD_append_right (l₁ l₂ : List Nat) (j : Nat) (h : l₁.length ≤ j) :
    (l₁ ++ l₂).getD j 0 = l₂.getD (j - l₁.length) 0 := by
  simp [List.getD_eq_getElem?_getD, List.getElem?_append, Nat.not_lt.mpr h]

theorem getD_take (l : List Nat) (k j : Nat) (h : j < k) :
    (l.take k).getD j 0 = l.getD j 0 := by
  simp [List.getD_eq_getElem?_getD, List.getElem?_take, h]

theorem getD_replicate_zero (n j : Nat) :
    (List.replicate n (0 : Nat)).getD j 0 = 0 := by
  rcases Nat.lt_or_ge j n with h | h
  · simp [List.getD_eq_getElem?_getD, List.getElem?_replicate, h]
  · simp [List.getD_eq_getElem?_getD, List.getElem?_replicate, Nat.not_lt.mpr h]

/-! ### The fresh (reset) record -/

theorem length_freshBody (N : Nat) : (freshBody N).length = 3 + 4 * N := by
  simp [freshBody]; omega

theorem length_freshRecord (N : Nat) :
    (freshRecord N).length = PARAM_STORE_SIZE N := by
  simp [freshRecord, length_freshBody, PARAM_STORE_SIZE]

theorem size_sub2 (N : Nat) : PARAM_STORE_SIZE N - 2 = 3 + 4 * N := by
  simp [PARAM_STORE_SIZE]

theorem size_sub1 (N : Nat) : PARAM_STORE_SIZE N - 1 = 3 + 4 * N + 1 := by
  simp [PARAM_STORE_SIZE]

theorem freshBody_getD_header (N : Nat) :
    (freshBody N).getD 0 0 = 66 ∧ (freshBody N).getD 1 0 = 70 ∧
      (freshBody N).getD 2 0 = 83 := by
  simp [freshBody]

theorem freshBody_getD_param (N j : Nat) (h1 : 3 ≤ j) :
    (freshBody N).getD j 0 = 0 := by
  rcases Nat.exists_eq_add_of_le h1 with ⟨m, rfl⟩
  rw [Nat.add_comm 3 m]
  exact getD_replicate_zero (4 * N) m

theorem freshRecord_getD_body (N j : Nat) (h : j < 3 + 4 * N) :
    (freshRecord N).getD j 0 = (freshBody N).getD j 0 :=
  getD_append_lt _ _ _ (by rw [length_freshBody]; omega)

theorem freshRecord_take (N : Nat) :
    (freshRecord N).take (3 + 4 * N) = freshBody N := by
  rw [freshRecord, ← length_freshBody N, List.take_left]

theorem freshRecord_getD_chk (N : Nat) :
    (freshRecord N).getD (3 + 4 * N) 0 = fletcher16 (freshBody N) / 256 % 256 ∧
      (freshRecord N).getD (3 + 4 * N + 1) 0 = fletcher16 (freshBody N) % 256 := by
  constructor
  · rw [freshRecord, ← length_freshBody N,
      getD_append_right _ _ _ (Nat.le_refl _)]
    simp
  · rw [freshRecord]
    have h : 3 + 4 * N + 1 = (freshBody N).length + 1 := by
      rw [length_freshBody]
    rw [h, getD_append_right _ _ _ (by omega)]
    simp

theorem chkConsistent_freshRecord (N : Nat) : chkConsistent N (freshRecord N) := by
  have h := freshRecord_getD_chk N
  exact ⟨by rw [freshRecord_take]; exact h.1, by rw [freshRecord_take]; exact h.2⟩

theorem classifyRecord_freshRecord (N : Nat) :
    classifyRecord N (freshRecord N) = .Valid := by
  have hh := freshBody_getD_header N
  have h0 : (freshRecord N).getD 0 0 = 66 := by
    rw [freshRecord_getD_body N 0 (by omega)]; exact hh.1
  have h1 : (freshRecord N).getD 1 0 = 70 := by
    rw [freshRecord_getD_body N 1 (by omega)]; exact hh.2.1
  have h2 : (freshRecord N).getD 2 0 = 83 := by
    rw [freshRecord_getD_body N 2 (by omega)]; exact hh.2.2
  have hc := freshRecord_getD_chk N
  have hlt := fletcher16_lt (freshBody N)
  rw [classifyRecord, freshRecord_take, size_sub2, size_sub1, h0, h1, h2,
    hc.1, hc.2]
  have : fletcher16 (freshBody N) / 256 % 256 * 256 +
      fletcher16 (freshBody N) % 256 = fletcher16 (freshBody N) := by omega
  simp [this]

theorem resetBuf_eq_freshRecord (N : Nat) (buf : List Nat)
    (hlen : buf.length = PARAM_STORE_SIZE N) :
    resetBuf N buf = freshRecord N := by
  rw [resetBuf]
  have hb1len : (((buf.set 0 66).set 1 70).set 2 83).length = PARAM_STORE_SIZE N := by
    simp [List.length_set, hlen]
  have hb2len :
      (writeBytes (((buf.set 0 66).set 1 70).set 2 83) 3
        (List.replicate (4 * N) 0)).length = PARAM_STORE_SIZE N := by
    rw [length_writeBytes]; exact hb1len
  have hsz : 3 + 4 * N ≤ PARAM_STORE_SIZE N := by simp [PARAM_STORE_SIZE]
  -- the header-and-parameter prefix after the reset is the fresh body
  have htake :
      (writeBytes (((buf.set 0 66).set 1 70).set 2 83) 3
        (List.replicate (4 * N) 0)).take (3 + 4 * N) = freshBody N := by
    refine ext_getD _ _ ?_ (fun j hj => ?_)
    · rw [List.length_take, hb2len, length_freshBody, Nat.min_eq_left hsz]
    · rw [List.length_take, hb2len, Nat.min_eq_left hsz] at hj
      rw [getD_take _ _ _ hj]
      rcases Nat.lt_or_ge j 3 with hj3 | hj3
      · rw [getD_writeBytes_lt _ _ _ _ hj3]
        interval_cases j
        · rw [getD_set_ne _ _ _ _ (by omega), getD_set_ne _ _ _ _ (by omega),
            getD_set_self _ _ _ (by omega)]
          exact (freshBody_getD_header N).1.symm
        · rw [getD_set_ne _ _ _ _ (by omega),
            getD_set_self _ _ _ (by simp [List.length_set]; omega)]
          exact (freshBody_getD_header N).2.1.symm
        · rw [getD_set_self _ _ _ (by simp [List.length_set]; omega)]
          exact (freshBody_getD_header N).2.2.symm
      · rw [getD_writeBytes_in _ _ _ _ hj3 (by simp; omega) (by omega),
          getD_replicate_zero, freshBody_getD_param N j hj3]
  rw [htake]
  refine ext_getD _ _ ?_ (fun j hj => ?_)
  · simp only [List.length_set]
    rw [hb2len, length_freshRecord]
  · simp only [List.length_set] at hj
    rw [hb2len] at hj
    rcases Nat.lt_or_ge j (3 + 4 * N) with hjb | hjb
    · rw [getD_set_ne _ _ _ _ (by rw [size_sub1]; omega),
        getD_set_ne _ _ _ _ (by rw [size_sub2]; omega),
        getD_take _ _ _ hjb |>.symm, htake,
        freshRecord_getD_body N j hjb]
    · have : j = 3 + 4 * N ∨ j = 3 + 4 * N + 1 := by
        simp [PARAM_STORE_SIZE] at hj; omega
      have hc := freshRecord_getD_chk N
      rcases this with rfl | rfl
      · rw [getD_set_ne _ _ _ _ (by rw [size_sub1]; omega), size_sub2,
          getD_set_self _ _ _ (by rw [hb2len, ← size_sub2 N]; simp [PARAM_STORE_SIZE])]
        exact hc.1.symm
      · rw [size_sub1,
          getD_set_self _ _ _ (by simp [List.length_set]; rw [hb2len]; simp [PARAM_STORE_SIZE])]
        exact hc.2.symm

/-! ### Classification facts -/

theorem classifyRecord_valid_of (N : Nat) (l : List Nat)
    (h0 : l.getD 0 0 = 66) (h1 : l.getD 1 0 = 70) (h2 : l.getD 2 0 = 83)
    (hc : chkConsistent N l) : classifyRecord N l = .Valid := by
  rw [classifyRecord, size_sub2, size_sub1, h0, h1, h2, hc.1, hc.2]
  have := fletcher16_lt (l.take (3 + 4 * N))
  have heq : fletcher16 (l.take (3 + 4 * N)) / 256 % 256 * 256 +
      fletcher16 (l.take (3 + 4 * N)) % 256 = fletcher16 (l.take (3 + 4 * N)) := by
    omega
  simp [heq]

theorem classifyRecord_valid_elim (N : Nat) (l : List Nat)
    (h : classifyRecord N l = .Valid) :
    l.getD 0 0 = 66 ∧ l.getD 1 0 = 70 ∧ l.getD 2 0 = 83 ∧
      fletcher16 (l.take (3 + 4 * N)) =
        l.getD (PARAM_STORE_SIZE N - 2) 0 * 256 +
          l.getD (PARAM_STORE_SIZE N - 1) 0 := by
  rw [classifyRecord] at h
  by_cases c1 : (l.getD 0 0 != 66 || l.getD 1 0 != 70 || l.getD 2 0 != 83) = true
  · rw [if_pos c1] at h; exact absurd h (by simp)
  · rw [if_neg c1] at h
    simp only [Bool.or_eq_true, bne_iff_ne, ne_eq, not_or, not_not] at c1
    by_cases c2 : (fletcher16 (l.take (3 + 4 * N)) !=
        l.getD (PARAM_STORE_SIZE N - 2) 0 * 256 +
          l.getD (PARAM_STORE_SIZE N - 1) 0) = true
    · rw [if_pos c2] at h; exact absurd h (by simp)
    · simp only [bne_iff_ne, ne_eq, not_not] at c2
      exact ⟨c1.1.1, c1.1.2, c1.2, c2⟩

/-! ### TelemInit branch characterizations -/

theorem telemInit_recovery_spec (N : Nat) (gs : GlobalState) (prm : List Nat)
    (h : classifyRecord N (loadedBuf N gs) ≠ .Valid) :
    (TelemInit N gs (some prm)).1.eeprom =
        (recordWrites N (resetBuf N (loadedBuf N gs))).foldl
          (fun e w => e.set w.1 w.2) gs.eeprom ∧
      (TelemInit N gs (some prm)).1.eepromWrites =
        gs.eepromWrites ++ recordWrites N (resetBuf N (loadedBuf N gs)) ∧
      (TelemInit N gs (some prm)).1.param_buf = resetBuf N (loadedBuf N gs) ∧
      (TelemInit N gs (some prm)).2 = some prm := by
  rw [classifyRecord] at h
  by_cases c1 : ((loadedBuf N gs).getD 0 0 != 66 ||
      (loadedBuf N gs).getD 1 0 != 70 || (loadedBuf N gs).getD 2 0 != 83) = true
  · simp only [TelemInit, loadedBuf] at *
    rw [if_pos c1]
    simp [eepromWriteSeq]
  · rw [if_neg c1] at h
    by_cases c2 : (fletcher16 ((loadedBuf N gs).take (3 + 4 * N)) !=
        (loadedBuf N gs).getD (PARAM_STORE_SIZE N - 2) 0 * 256 +
          (loadedBuf N gs).getD (PARAM_STORE_SIZE N - 1) 0) = true
    · simp only [TelemInit, loadedBuf] at *
      rw [if_neg c1, if_pos c2]
      simp [eepromWriteSeq]
    · rw [if_neg c2] at h
      exact absurd rfl h

theorem telemInit_valid_spec (N : Nat) (gs : GlobalState) (prm : List Nat)
    (h : classifyRecord N (loadedBuf N gs) = .Valid) :
    TelemInit N gs (some prm) =
      ({ gs with
         param_buf := loadedBuf N gs,
         chk_computed := fletcher16 ((loadedBuf N gs).take (3 + 4 * N)),
         chk_read := (loadedBuf N gs).getD (PARAM_STORE_SIZE N - 2) 0 * 256 +
           (loadedBuf N gs).getD (PARAM_STORE_SIZE N - 1) 0,
         chk_buf := [(loadedBuf N gs).getD (PARAM_STORE_SIZE N - 2) 0,
           (loadedBuf N gs).getD (PARAM_STORE_SIZE N - 1) 0],
         telem_params := gs.telem_params ++
           [writeBytes prm 0 (readBytes (loadedBuf N gs) 3 (4 * N))] },
       some (writeBytes prm 0 (readBytes (loadedBuf N gs) 3 (4 * N)))) := by
  obtain ⟨h0, h1, h2, hchk⟩ := classifyRecord_valid_elim N _ h
  simp only [TelemInit, loadedBuf] at *
  rw [if_neg (by
      simp only [Bool.or_eq_true, bne_iff_ne, ne_eq, not_or, not_not]
      exact ⟨⟨h0, h1⟩, h2⟩),
    if_neg (by simp only [bne_iff_ne, ne_eq, not_not]; exact hchk)]

theorem telemInit_corrupted_msgs (N : Nat) (gs : GlobalState) (prm : List Nat)
    (h : classifyRecord N (loadedBuf N gs) = .Corrupted) :
    (TelemInit N gs (some prm)).1.msgs =
      gs.msgs ++ ["Parameter storage corrupted, resetting...", "done.\n"] := by
  rw [classifyRecord] at h
  by_cases c1 : ((loadedBuf N gs).getD 0 0 != 66 ||
      (loadedBuf N gs).getD 1 0 != 70 || (loadedBuf N gs).getD 2 0 != 83) = true
  · rw [if_pos c1] at h; exact absurd h (by simp)
  · rw [if_neg c1] at h
    by_cases c2 : (fletcher16 ((loadedBuf N gs).take (3 + 4 * N)) !=
        (loadedBuf N gs).getD (PARAM_STORE_SIZE N - 2) 0 * 256 +
          (loadedBuf N gs).getD (PARAM_STORE_SIZE N - 1) 0) = true
    · simp only [TelemInit, loadedBuf] at *
      rw [if_neg c1, if_pos c2]
      simp [eepromWriteSeq]
    · rw [if_neg c2] at h; exact absurd h (by simp)

theorem telemInit_recovery_region (N : Nat) (gs : GlobalState) (prm : List Nat)
    (h : classifyRecord N (loadedBuf N gs) ≠ .Valid)
    (heep : PARAM_STORE_SIZE N ≤ gs.eeprom.length) :
    readBytes (TelemInit N gs (some prm)).1.eeprom 0 (PARAM_STORE_SIZE N) =
        freshRecord N ∧
      (TelemInit N gs (some prm)).1.param_buf = freshRecord N := by
  obtain ⟨he, _, hb, _⟩ := telemInit_recovery_spec N gs prm h
  have hfresh : resetBuf N (loadedBuf N gs) = freshRecord N :=
    resetBuf_eq_freshRecord N _ (length_readBytes _ _ _)
  refine ⟨?_, by rw [hb, hfresh]⟩
  refine ext_getD _ _ (by rw [length_readBytes, length_freshRecord]) ?_
  intro j hj
  rw [length_readBytes] at hj
  rw [getD_readBytes _ _ _ _ hj, Nat.zero_add, he, recordWrites, hfresh,
    foldl_set_rangeMap _ _ _ _ hj (by omega), freshRecord]

/-! ### The update path: param_buf facts -/

theorem take_set_ge (l : List Nat) (k p v : Nat) (h : k ≤ p) :
    (l.set p v).take k = l.take k := by
  refine ext_getD _ _ (by simp [List.length_take, List.length_set]) ?_
  intro j hj
  rw [List.length_take, List.length_set] at hj
  have hjk : j < k := by omega
  rw [getD_take _ _ _ hjk, getD_take _ _ _ hjk,
    getD_set_ne _ _ _ _ (by omega)]

theorem length_updBuf (N : Nat) (pb prm v : List Nat) (i : Nat) :
    (updBuf N pb prm v i).length = pb.length := by
  simp [updBuf, List.length_set, length_writeBytes]

theorem fletcher16_take_updBuf (N : Nat) (pb prm v : List Nat) (i : Nat) :
    fletcher16 ((updBuf N pb prm v i).take (3 + 4 * N)) = updChk N pb prm v i := by
  rw [updBuf, updChk]
  rw [take_set_ge _ _ _ _ (by rw [size_sub1]; omega),
    take_set_ge _ _ _ _ (by rw [size_sub2])]

theorem updBuf_getD_chk (N : Nat) (pb prm v : List Nat) (i : Nat)
    (hbuf : pb.length = PARAM_STORE_SIZE N) :
    (updBuf N pb prm v i).getD (3 + 4 * N) 0 = updChk N pb prm v i / 256 % 256 ∧
      (updBuf N pb prm v i).getD (3 + 4 * N + 1) 0 = updChk N pb prm v i % 256 := by
  have hlen : (writeBytes pb (3 + 4 * i)
      (readBytes (writeBytes prm (4 * i) v) (4 * i) 4)).length =
      PARAM_STORE_SIZE N := by rw [length_writeBytes, hbuf]
  constructor
  · rw [updBuf]
    show ((_ : List Nat).set (PARAM_STORE_SIZE N - 1) _).getD (3 + 4 * N) 0 = _
    rw [getD_set_ne _ _ _ _ (by rw [size_sub1]; omega), size_sub2 N,
      getD_set_self _ _ _
        (by rw [hlen, show PARAM_STORE_SIZE N = 3 + 4 * N + 2 from rfl]; omega),
      updChk]
  · rw [updBuf]
    show ((_ : List Nat).set (PARAM_STORE_SIZE N - 1) _).getD (3 + 4 * N + 1) 0 = _
    rw [size_sub1 N,
      getD_set_self _ _ _
        (by
          simp only [List.length_set]
          rw [hlen, show PARAM_STORE_SIZE N = 3 + 4 * N + 2 from rfl]; omega),
      updChk]

theorem chkConsistent_updBuf (N : Nat) (pb prm v : List Nat) (i : Nat)
    (hbuf : pb.length = PARAM_STORE_SIZE N) :
    chkConsistent N (updBuf N pb prm v i) := by
  have h := updBuf_getD_chk N pb prm v i hbuf
  exact ⟨by rw [fletcher16_take_updBuf]; exact h.1,
    by rw [fletcher16_take_updBuf]; exact h.2⟩

theorem updBuf_getD_lt3 (N : Nat) (pb prm v : List Nat) (i j : Nat)
    (hj : j < 3) : (updBuf N pb prm v i).getD j 0 = pb.getD j 0 := by
  rw [updBuf]
  show ((_ : List Nat).set (PARAM_STORE_SIZE N - 1) _).getD j 0 = _
  rw [getD_set_ne _ _ _ _ (by rw [size_sub1]; omega),
    getD_set_ne _ _ _ _ (by rw [size_sub2]; omega),
    getD_writeBytes_lt _ _ _ _ (by omega)]

theorem updBuf_getD_param (N : Nat) (pb prm v : List Nat) (i j : Nat)
    (hbuf : pb.length = PARAM_STORE_SIZE N) (hi : i < N) (hj : j < 4 * N) :
    (updBuf N pb prm v i).getD (3 + j) 0 =
      if 4 * i ≤ j ∧ j < 4 * i + 4 then (writeBytes prm (4 * i) v).getD j 0
      else pb.getD (3 + j) 0 := by
  rw [updBuf]
  show ((_ : List Nat).set (PARAM_STORE_SIZE N - 1) _).getD (3 + j) 0 = _
  rw [getD_set_ne _ _ _ _ (by rw [size_sub1]; omega),
    getD_set_ne _ _ _ _ (by rw [size_sub2]; omega)]
  split_ifs with hw
  · rw [getD_writeBytes_in _ _ _ _ (by omega)
      (by rw [length_readBytes]; omega) (by rw [hbuf]; simp [PARAM_STORE_SIZE]; omega)]
    have h4 : 3 + j - (3 + 4 * i) = j - 4 * i := by omega
    rw [h4, getD_readBytes _ _ _ _ (by omega)]
    have h5 : 4 * i + (j - 4 * i) = j := by omega
    rw [h5]
  · rcases Nat.lt_or_ge j (4 * i) with hlt | hge
    · rw [getD_writeBytes_lt _ _ _ _ (by omega)]
    · rw [getD_writeBytes_ge _ _ _ _ (by rw [length_readBytes]; omega)]

/-! ### The update path: EEPROM facts -/

theorem updWrites_map_fst (N : Nat) (pb2 : List Nat) (i : Nat) :
    (updWrites N pb2 i).map Prod.fst =
      [3 + 4 * i, 3 + 4 * i + 1, 3 + 4 * i + 2, 3 + 4 * i + 3,
        PARAM_STORE_SIZE N - 2, PARAM_STORE_SIZE N - 1] := by
  rw [updWrites, show List.range 4 = [0, 1, 2, 3] from rfl]
  simp

theorem updWrites_foldl_getD (N : Nat) (pb2 : List Nat) (i : Nat)
    (e : List Nat) (j : Nat) (hi : i < N) (hjlen : j < e.length) :
    ((updWrites N pb2 i).foldl (fun l w => l.set w.1 w.2) e).getD j 0 =
      if (3 + 4 * i ≤ j ∧ j < 3 + 4 * i + 4) ∨
          j = PARAM_STORE_SIZE N - 2 ∨ j = PARAM_STORE_SIZE N - 1 then
        pb2.getD j 0
      else e.getD j 0 := by
  have hs2 := size_sub2 N
  have hs1 := size_sub1 N
  rw [updWrites, show List.range 4 = [0, 1, 2, 3] from rfl]
  simp only [List.map_cons, List.map_nil, List.cons_append, List.nil_append,
    List.foldl_cons, List.foldl_nil, Nat.add_zero]
  split_ifs with h
  · rcases h with ⟨h1, h2⟩ | rfl | rfl
    · have : j = 3 + 4 * i ∨ j = 3 + 4 * i + 1 ∨ j = 3 + 4 * i + 2 ∨
          j = 3 + 4 * i + 3 := by omega
      rcases this with rfl | rfl | rfl | rfl
      · rw [getD_set_ne _ _ _ _ (by omega), getD_set_ne _ _ _ _ (by omega),
          getD_set_ne _ _ _ _ (by omega), getD_set_ne _ _ _ _ (by omega),
          getD_set_ne _ _ _ _ (by omega),
          getD_set_self _ _ _ (by simpa using hjlen)]
      · rw [getD_set_ne _ _ _ _ (by omega), getD_set_ne _ _ _ _ (by omega),
          getD_set_ne _ _ _ _ (by omega), getD_set_ne _ _ _ _ (by omega),
          getD_set_self _ _ _ (by simp [List.length_set]; omega)]
      · rw [getD_set_ne _ _ _ _ (by omega), getD_set_ne _ _ _ _ (by omega),
          getD_set_ne _ _ _ _ (by omega),
          getD_set_self _ _ _ (by simp [List.length_set]; omega)]
      · rw [getD_set_ne _ _ _ _ (by omega), getD_set_ne _ _ _ _ (by omega),
          getD_set_self _ _ _ (by simp [List.length_set]; omega)]
    · rw [getD_set_ne _ _ _ _ (by omega),
        getD_set_self _ _ _ (by simp [List.length_set]; omega)]
    · rw [getD_set_self _ _ _ (by simp [List.length_set]; omega)]
  · push_neg at h
    obtain ⟨hw, hne2, hne1⟩ := h
    have hj0 : j ≠ 3 + 4 * i := by intro hq; subst hq; omega
    have hj1 : j ≠ 3 + 4 * i + 1 := by intro hq; subst hq; omega
    have hj2 : j ≠ 3 + 4 * i + 2 := by intro hq; subst hq; omega
    have hj3 : j ≠ 3 + 4 * i + 3 := by intro hq; subst hq; omega
    rw [getD_set_ne _ _ _ _ (Ne.symm hne1), getD_set_ne _ _ _ _ (Ne.symm hne2),
      getD_set_ne _ _ _ _ (Ne.symm hj3), getD_set_ne _ _ _ _ (Ne.symm hj2),
      getD_set_ne _ _ _ _ (Ne.symm hj1), getD_set_ne _ _ _ _ (Ne.symm hj0)]

/-! ### TelemUpdate characterizations -/

theorem telemUpdate_ofNat_eq (N : Nat) (gs : GlobalState) (prm v : List Nat)
    (i : Nat) :
    TelemUpdate N gs (some prm) (Int.ofNat i) v =
      (eepromWriteSeq
        { gs with
          param_idx := Int.ofNat i,
          param_buf := updBuf N gs.param_buf prm v i,
          chk_computed := updChk N gs.param_buf prm v i,
          chk_buf := [updChk N gs.param_buf prm v i / 256 % 256,
            updChk N gs.param_buf prm v i % 256] }
        (updWrites N (updBuf N gs.param_buf prm v i) i),
       some (writeBytes prm (4 * i) v)) := by
  simp only [TelemUpdate]
  rw [if_pos (by exact Int.natCast_nonneg i : (0 : Int) ≤ Int.ofNat i)]
  rw [show (Int.ofNat i).toNat = i from rfl]

theorem telemUpdate_neg_eq (N : Nat) (gs : GlobalState) (prm v : List Nat)
    (updIdx : Int) (h : updIdx < 0) :
    TelemUpdate N gs (some prm) updIdx v =
      ({ gs with param_idx := updIdx }, some prm) := by
  simp only [TelemUpdate]
  rw [if_neg (by omega)]

theorem telemUpdate_reload (N : Nat) (gs : GlobalState) (prm v : List Nat)
    (i : Nat) (hi : i < N)
    (hbuf : gs.param_buf.length = PARAM_STORE_SIZE N)
    (heep : PARAM_STORE_SIZE N ≤ gs.eeprom.length)
    (hmir : BufMirror N gs) :
    loadedBuf N (TelemUpdate N gs (some prm) (Int.ofNat i) v).1 =
      updBuf N gs.param_buf prm v i := by
  rw [telemUpdate_ofNat_eq, loadedBuf]
  refine ext_getD _ _ ?_ (fun j hj => ?_)
  · rw [length_readBytes, length_updBuf, hbuf]
  · rw [length_readBytes] at hj
    rw [getD_readBytes _ _ _ _ hj, Nat.zero_add]
    show ((updWrites N (updBuf N gs.param_buf prm v i) i).foldl
      (fun e w => e.set w.1 w.2) gs.eeprom).getD j 0 = _
    rw [updWrites_foldl_getD _ _ _ _ _ hi (by omega)]
    split_ifs with h
    · rfl
    · push_neg at h
      rw [← hmir j hj]
      have hs2 := size_sub2 N
      have hs1 := size_sub1 N
      have hsz : PARAM_STORE_SIZE N = 3 + 4 * N + 2 := rfl
      rcases Nat.lt_or_ge j 3 with h3 | h3
      · rw [updBuf_getD_lt3 _ _ _ _ _ _ h3]
      · obtain ⟨j', rfl⟩ : ∃ j', j = 3 + j' := ⟨j - 3, by omega⟩
        rw [updBuf_getD_param _ _ _ _ _ _ hbuf hi (by omega),
          if_neg (by omega)]

theorem telemUpdate_classify_valid (N : Nat) (gs : GlobalState)
    (prm v : List Nat) (i : Nat) (hi : i < N)
    (hbuf : gs.param_buf.length = PARAM_STORE_SIZE N)
    (hmir : BufMirror N gs)
    (hvalid : classifyRecord N (loadedBuf N gs) = .Valid) :
    classifyRecord N (updBuf N gs.param_buf prm v i) = .Valid := by
  obtain ⟨h0, h1, h2, _⟩ := classifyRecord_valid_elim N _ hvalid
  have hsz : PARAM_STORE_SIZE N = 3 + 4 * N + 2 := rfl
  have hload : ∀ j, j < PARAM_STORE_SIZE N →
      (loadedBuf N gs).getD j 0 = gs.eeprom.getD j 0 := fun j hj => by
    rw [loadedBuf, getD_readBytes _ _ _ _ hj, Nat.zero_add]
  refine classifyRecord_valid_of N _ ?_ ?_ ?_
    (chkConsistent_updBuf N _ _ _ _ hbuf)
  · calc (updBuf N gs.param_buf prm v i).getD 0 0
        = gs.param_buf.getD 0 0 := updBuf_getD_lt3 _ _ _ _ _ _ (by omega)
      _ = gs.eeprom.getD 0 0 := hmir 0 (by omega)
      _ = (loadedBuf N gs).getD 0 0 := (hload 0 (by omega)).symm
      _ = 66 := h0
  · calc (updBuf N gs.param_buf prm v i).getD 1 0
        = gs.param_buf.getD 1 0 := updBuf_getD_lt3 _ _ _ _ _ _ (by omega)
      _ = gs.eeprom.getD 1 0 := hmir 1 (by omega)
      _ = (loadedBuf N gs).getD 1 0 := (hload 1 (by omega)).symm
      _ = 70 := h1
  · calc (updBuf N gs.param_buf prm v i).getD 2 0
        = gs.param_buf.getD 2 0 := updBuf_getD_lt3 _ _ _ _ _ _ (by omega)
      _ = gs.eeprom.getD 2 0 := hmir 2 (by omega)
      _ = (loadedBuf N gs).getD 2 0 := (hload 2 (by omega)).symm
      _ = 83 := h2

/-! ### Claim theorems -/

/-- C10: calling TelemInit or TelemUpdate with a null TelemData pointer
returns immediately: the EEPROM device, its write trace, the parameter
buffer and checksum state, the emitted events and the MAV Link pushes are
all left exactly as they were, and no parameter array is produced. -/
theorem c10_null_ptr_noop (N : Nat) (gs : GlobalState) (updIdx : Int)
    (v : List Nat) :
    TelemInit N gs none = (gs, none) ∧
      TelemUpdate N gs none updIdx v = (gs, none) :=
  ⟨rfl, rfl⟩

/-- C1 (amended): the update path of TelemUpdate rejects a negative
updated-parameter index without touching storage: the device bytes, the
write trace, param_buf, the emitted events and the runtime parameter
array are all unchanged (only the param_idx_ global records the index).
The original claim also asserted rejection of indices ≥ N, but the code
only checks param_idx_ >= 0 (telem.cc line 271); see the counterexample. -/
theorem c1_negative_index_rejected (N : Nat) (gs : GlobalState)
    (prm v : List Nat) (updIdx : Int) (h : updIdx < 0) :
    (TelemUpdate N gs (some prm) updIdx v).1.eeprom = gs.eeprom ∧
      (TelemUpdate N gs (some prm) updIdx v).1.eepromWrites = gs.eepromWrites ∧
      (TelemUpdate N gs (some prm) updIdx v).1.param_buf = gs.param_buf ∧
      (TelemUpdate N gs (some prm) updIdx v).1.msgs = gs.msgs ∧
      (TelemUpdate N gs (some prm) updIdx v).2 = some prm := by
  rw [telemUpdate_neg_eq N gs prm v updIdx h]
  exact ⟨rfl, rfl, rfl, rfl, rfl⟩

/-- C1 witness: at index -1 nothing is persisted. -/
theorem c1_negative_index_rejected_witness :
    (-1 : Int) < 0 ∧
      (TelemUpdate 1 gsFresh (some [0, 0, 0, 0]) (-1) [1, 2, 3, 4]).1.eeprom =
        gsFresh.eeprom :=
  ⟨by decide,
    (c1_negative_index_rejected 1 gsFresh [0, 0, 0, 0] [1, 2, 3, 4] (-1)
      (by decide)).1⟩

/-- C1 counterexample: with N = 1, the out-of-range index 1 is NOT
rejected: the code enters the param_idx_ >= 0 branch, recomputes the
checksum over param_buf and issues EEPROM writes (telem.cc lines
286-292), here changing the persisted checksum bytes (the access to
ptr->param[1] is moreover out of bounds in the C++ source). -/
theorem c1_out_of_range_counterexample :
    (TelemUpdate 1 gsStale (some [0, 0, 0, 0]) 1 [9, 9, 9, 9]).1.eeprom ≠
        gsStale.eeprom ∧
      (TelemUpdate 1 gsStale (some [0, 0, 0, 0]) 1 [9, 9, 9, 9]).1.eepromWrites ≠
        gsStale.eepromWrites := by
  exact ⟨by decide, by decide⟩

/-- C2: when TelemInit finds an invalid header (Uninitialized) or a
checksum mismatch (Corrupted), it terminates with the runtime parameter
array all zeros and consistent with the freshly persisted record: the
recovery branches do not write ptr->param, which holds the all-zero
value the zero-initialized global TelemData has at startup, and the
persisted parameter bytes are reset to zero, so array and record agree
at every parameter position. -/
theorem c2_recovery_zeroes_array (N : Nat) (gs : GlobalState)
    (heep : PARAM_STORE_SIZE N ≤ gs.eeprom.length)
    (h : classifyRecord N (loadedBuf N gs) ≠ .Valid) :
    (TelemInit N gs (some (List.replicate (4 * N) 0))).2 =
        some (List.replicate (4 * N) 0) ∧
      readBytes (TelemInit N gs (some (List.replicate (4 * N) 0))).1.eeprom
          3 (4 * N) =
        List.replicate (4 * N) 0 := by
  obtain ⟨hreg, _⟩ := telemInit_recovery_region N gs _ h heep
  obtain ⟨_, _, _, hsnd⟩ := telemInit_recovery_spec N gs _ h
  refine ⟨hsnd, ?_⟩
  refine ext_getD _ _ (by rw [length_readBytes, List.length_replicate])
    (fun j hj => ?_)
  rw [length_readBytes] at hj
  rw [getD_readBytes _ _ _ _ hj, getD_replicate_zero]
  have hsz : PARAM_STORE_SIZE N = 3 + 4 * N + 2 := rfl
  have hfr : (readBytes (TelemInit N gs (some (List.replicate (4 * N) 0))).1.eeprom
      0 (PARAM_STORE_SIZE N)).getD (3 + j) 0 = (freshRecord N).getD (3 + j) 0 := by
    rw [hreg]
  rw [getD_readBytes _ _ _ _ (by omega), Nat.zero_add] at hfr
  rw [hfr, freshRecord_getD_body N _ (by omega),
    freshBody_getD_param N _ (by omega)]

/-- C2 witness: a blank device is recovered to an all-zero parameter
region. -/
theorem c2_recovery_zeroes_array_witness :
    PARAM_STORE_SIZE 1 ≤ gsZero.eeprom.length ∧
      classifyRecord 1 (loadedBuf 1 gsZero) ≠ .Valid ∧
      readBytes (TelemInit 1 gsZero (some (List.replicate (4 * 1) 0))).1.eeprom
          3 (4 * 1) =
        List.replicate (4 * 1) 0 :=
  ⟨by decide, by decide,
    (c2_recovery_zeroes_array 1 gsZero (by decide) (by decide)).2⟩

/-- C5: when the stored record has the magic header and its stored
16-bit checksum equals the freshly computed one (the Valid case),
TelemInit performs no write to the storage device (device bytes and
write trace unchanged) and decodes the persisted parameter bytes into
the runtime array it returns. -/
theorem c5_valid_load_no_write (N : Nat) (gs : GlobalState) (prm : List Nat)
    (hvalid : classifyRecord N (loadedBuf N gs) = .Valid)
    (hplen : prm.length = 4 * N) :
    (TelemInit N gs (some prm)).1.eeprom = gs.eeprom ∧
      (TelemInit N gs (some prm)).1.eepromWrites = gs.eepromWrites ∧
      (TelemInit N gs (some prm)).2 = some (readBytes gs.eeprom 3 (4 * N)) := by
  rw [telemInit_valid_spec N gs prm hvalid]
  refine ⟨rfl, rfl, ?_⟩
  have hsz : PARAM_STORE_SIZE N = 3 + 4 * N + 2 := rfl
  have h1 : readBytes (loadedBuf N gs) 3 (4 * N) = readBytes gs.eeprom 3 (4 * N) := by
    refine ext_getD _ _ (by rw [length_readBytes, length_readBytes])
      (fun j hj => ?_)
    rw [length_readBytes] at hj
    rw [getD_readBytes _ _ _ _ hj, getD_readBytes _ _ _ _ hj, loadedBuf,
      getD_readBytes _ _ _ _ (by omega : 3 + j < PARAM_STORE_SIZE N),
      Nat.zero_add]
  rw [h1, writeBytes_full _ _ (by rw [length_readBytes, hplen])]

/-- C5 witness: loading a valid record issues no device write. -/
theorem c5_valid_load_no_write_witness :
    classifyRecord 1 (loadedBuf 1 gsFresh) = .Valid ∧
      ([0, 0, 0, 0] : List Nat).length = 4 * 1 ∧
      (TelemInit 1 gsFresh (some [0, 0, 0, 0])).1.eepromWrites =
        gsFresh.eepromWrites :=
  ⟨by decide, by decide,
    (c5_valid_load_no_write 1 gsFresh [0, 0, 0, 0] (by decide) (by decide)).2.1⟩

/-- C8: the Uninitialized recovery path and the Corrupted recovery path
produce byte-for-byte identical persisted records (both the fresh reset
record), and running TelemInit again on the recovered state leaves the
same record bytes (the second run classifies it Valid and writes
nothing). -/
theorem c8_reset_idempotent (N : Nat) (gs₁ gs₂ : GlobalState)
    (p₁ p₂ : List Nat)
    (h₁ : classifyRecord N (loadedBuf N gs₁) = .Uninitialized)
    (h₂ : classifyRecord N (loadedBuf N gs₂) = .Corrupted)
    (he₁ : PARAM_STORE_SIZE N ≤ gs₁.eeprom.length)
    (he₂ : PARAM_STORE_SIZE N ≤ gs₂.eeprom.length) :
    readBytes (TelemInit N gs₁ (some p₁)).1.eeprom 0 (PARAM_STORE_SIZE N) =
        readBytes (TelemInit N gs₂ (some p₂)).1.eeprom 0 (PARAM_STORE_SIZE N) ∧
      readBytes (TelemInit N (TelemInit N gs₁ (some p₁)).1
          (TelemInit N gs₁ (some p₁)).2).1.eeprom 0 (PARAM_STORE_SIZE N) =
        readBytes (TelemInit N gs₁ (some p₁)).1.eeprom 0 (PARAM_STORE_SIZE N) := by
  obtain ⟨hr1, _⟩ := telemInit_recovery_region N gs₁ p₁ (by rw [h₁]; simp) he₁
  obtain ⟨hr2, _⟩ := telemInit_recovery_region N gs₂ p₂ (by rw [h₂]; simp) he₂
  obtain ⟨_, _, _, hsnd⟩ := telemInit_recovery_spec N gs₁ p₁ (by rw [h₁]; simp)
  refine ⟨by rw [hr1, hr2], ?_⟩
  rw [hsnd]
  have hcl : classifyRecord N (loadedBuf N (TelemInit N gs₁ (some p₁)).1) =
      .Valid := by
    rw [loadedBuf, hr1]
    exact classifyRecord_freshRecord N
  rw [telemInit_valid_spec N _ p₁ hcl]

/-- C8 witness: an uninitialized device and a corrupted device recover to
the same record bytes. -/
theorem c8_reset_idempotent_witness :
    classifyRecord 1 (loadedBuf 1 gsZero) = .Uninitialized ∧
      classifyRecord 1 (loadedBuf 1 gsStale) = .Corrupted ∧
      readBytes (TelemInit 1 gsZero (some [0, 0, 0, 0])).1.eeprom 0
          (PARAM_STORE_SIZE 1) =
        readBytes (TelemInit 1 gsStale (some [0, 0, 0, 0])).1.eeprom 0
          (PARAM_STORE_SIZE 1) :=
  ⟨by decide, by decide,
    (c8_reset_idempotent 1 gsZero gsStale [0, 0, 0, 0] [0, 0, 0, 0]
      (by decide) (by decide) (by decide) (by decide)).1⟩

/-- C4: an in-range update writes to the storage device exactly the
4 bytes of parameter field i (offsets 3+4i .. 3+4i+3) and the 2 checksum
bytes (offsets 3+4N and 3+4N+1), in that order; every other device byte
is left unchanged. -/
theorem c4_update_write_frame (N : Nat) (gs : GlobalState) (prm v : List Nat)
    (i : Nat) (hi : i < N) :
    ((TelemUpdate N gs (some prm) (Int.ofNat i) v).1.eepromWrites).map Prod.fst =
        gs.eepromWrites.map Prod.fst ++
          [3 + 4 * i, 3 + 4 * i + 1, 3 + 4 * i + 2, 3 + 4 * i + 3,
            3 + 4 * N, 3 + 4 * N + 1] ∧
      ∀ j, j ≠ 3 + 4 * i → j ≠ 3 + 4 * i + 1 → j ≠ 3 + 4 * i + 2 →
        j ≠ 3 + 4 * i + 3 → j ≠ 3 + 4 * N → j ≠ 3 + 4 * N + 1 →
        (TelemUpdate N gs (some prm) (Int.ofNat i) v).1.eeprom.getD j 0 =
          gs.eeprom.getD j 0 := by
  rw [telemUpdate_ofNat_eq]
  constructor
  · simp only [eepromWriteSeq]
    rw [List.map_append, updWrites_map_fst, size_sub2, size_sub1]
  · intro j h0 h1 h2 h3 h4 h5
    simp only [eepromWriteSeq]
    refine foldl_set_getD_notin _ _ _ (fun w hw => ?_)
    have hmem : w.1 ∈ (updWrites N (updBuf N gs.param_buf prm v i) i).map
        Prod.fst := List.mem_map_of_mem Prod.fst hw
    rw [updWrites_map_fst, size_sub2, size_sub1] at hmem
    simp only [List.mem_cons, List.not_mem_nil, or_false] at hmem
    rcases hmem with h | h | h | h | h | h <;> omega

/-- C4 witness: updating parameter 0 of an N = 1 store writes offsets
3,4,5,6 and the checksum offsets 7,8 only. -/
theorem c4_update_write_frame_witness :
    0 < 1 ∧
      ((TelemUpdate 1 gsFresh (some [0, 0, 0, 0]) (Int.ofNat 0)
          [1, 2, 3, 4]).1.eepromWrites).map Prod.fst =
        gsFresh.eepromWrites.map Prod.fst ++
          [3 + 4 * 0, 3 + 4 * 0 + 1, 3 + 4 * 0 + 2, 3 + 4 * 0 + 3,
            3 + 4 * 1, 3 + 4 * 1 + 1] :=
  ⟨by decide,
    (c4_update_write_frame 1 gsFresh [0, 0, 0, 0] [1, 2, 3, 4] 0 (by decide)).1⟩

/-- C9: after every completed store operation that writes (the
initialize/recover path of TelemInit, and an in-range update on a loaded
valid store), the persisted record satisfies the validity predicate the
loader checks — magic header and stored big-endian checksum equal to the
one freshly computed over bytes 0 ..< 3+4N — so a subsequent load
classifies it Valid. -/
theorem c9_persisted_record_valid (N : Nat) (gs₁ gs₂ : GlobalState)
    (p₁ p₂ v : List Nat) (i : Nat)
    (h₁ : classifyRecord N (loadedBuf N gs₁) ≠ .Valid)
    (he₁ : PARAM_STORE_SIZE N ≤ gs₁.eeprom.length)
    (hi : i < N)
    (hbuf : gs₂.param_buf.length = PARAM_STORE_SIZE N)
    (he₂ : PARAM_STORE_SIZE N ≤ gs₂.eeprom.length)
    (hmir : BufMirror N gs₂)
    (hv₂ : classifyRecord N (loadedBuf N gs₂) = .Valid) :
    classifyRecord N (loadedBuf N (TelemInit N gs₁ (some p₁)).1) = .Valid ∧
      classifyRecord N
        (loadedBuf N (TelemUpdate N gs₂ (some p₂) (Int.ofNat i) v).1) =
        .Valid := by
  constructor
  · rw [loadedBuf, (telemInit_recovery_region N gs₁ p₁ h₁ he₁).1]
    exact classifyRecord_freshRecord N
  · rw [telemUpdate_reload N gs₂ p₂ v i hi hbuf he₂ hmir]
    exact telemUpdate_classify_valid N gs₂ p₂ v i hi hbuf hmir hv₂

/-- C9 witness: recovery of a blank device and an update of a fresh
valid store both leave a record the loader classifies Valid. -/
theorem c9_persisted_record_valid_witness :
    classifyRecord 1 (loadedBuf 1 gsZero) ≠ .Valid ∧
      BufMirror 1 gsFresh ∧
      classifyRecord 1 (loadedBuf 1 (TelemInit 1 gsZero (some [0, 0, 0, 0])).1) =
        .Valid ∧
      classifyRecord 1
        (loadedBuf 1 (TelemUpdate 1 gsFresh (some [0, 0, 0, 0]) (Int.ofNat 0)
          [1, 2, 3, 4]).1) = .Valid := by
  have h := c9_persisted_record_valid 1 gsZero gsFresh [0, 0, 0, 0] [0, 0, 0, 0]
    [1, 2, 3, 4] 0 (by decide) (by decide) (by decide) (by decide) (by decide)
    (by decide) (by decide)
  exact ⟨by decide, by decide, h.1, h.2⟩

/-- C6: every path that computes the record checksum covers exactly the
bytes 0 ..< 3+4N and uses the big-endian 16-bit slot at offset 3+4N:
after the initialize/recover path and after an in-range update the
persisted record is checksum-consistent (the two bytes at 3+4N hold,
big-endian, the checksum of the prefix 0 ..< 3+4N, which excludes the
checksum bytes themselves), and on the read path the stored checksum is
read big-endian from those two bytes into chk_read while chk_computed is
the checksum of exactly the prefix 0 ..< 3+4N of the read record. -/
theorem c6_checksum_coverage (N : Nat) (gs₁ gs₂ gs₃ : GlobalState)
    (p₁ p₂ p₃ v : List Nat) (i : Nat)
    (h₁ : classifyRecord N (loadedBuf N gs₁) ≠ .Valid)
    (he₁ : PARAM_STORE_SIZE N ≤ gs₁.eeprom.length)
    (hi : i < N)
    (hbuf : gs₂.param_buf.length = PARAM_STORE_SIZE N)
    (he₂ : PARAM_STORE_SIZE N ≤ gs₂.eeprom.length)
    (hmir : BufMirror N gs₂)
    (h₃ : classifyRecord N (loadedBuf N gs₃) = .Valid) :
    chkConsistent N (loadedBuf N (TelemInit N gs₁ (some p₁)).1) ∧
      chkConsistent N
        (loadedBuf N (TelemUpdate N gs₂ (some p₂) (Int.ofNat i) v).1) ∧
      (TelemInit N gs₃ (some p₃)).1.chk_read =
        (loadedBuf N gs₃).getD (PARAM_STORE_SIZE N - 2) 0 * 256 +
          (loadedBuf N gs₃).getD (PARAM_STORE_SIZE N - 1) 0 ∧
      (TelemInit N gs₃ (some p₃)).1.chk_computed =
        fletcher16 ((loadedBuf N gs₃).take (3 + 4 * N)) := by
  refine ⟨?_, ?_, ?_, ?_⟩
  · rw [loadedBuf, (telemInit_recovery_region N gs₁ p₁ h₁ he₁).1]
    exact chkConsistent_freshRecord N
  · rw [telemUpdate_reload N gs₂ p₂ v i hi hbuf he₂ hmir]
    exact chkConsistent_updBuf N _ _ _ _ hbuf
  · rw [telemInit_valid_spec N gs₃ p₃ h₃]
  · rw [telemInit_valid_spec N gs₃ p₃ h₃]

/-- C6 witness: checksum placement and coverage at N = 1. -/
theorem c6_checksum_coverage_witness :
    BufMirror 1 gsFresh ∧
      chkConsistent 1 (loadedBuf 1 (TelemInit 1 gsZero (some [0, 0, 0, 0])).1) ∧
      (TelemInit 1 gsFresh (some [0, 0, 0, 0])).1.chk_read =
        (loadedBuf 1 gsFresh).getD (PARAM_STORE_SIZE 1 - 2) 0 * 256 +
          (loadedBuf 1 gsFresh).getD (PARAM_STORE_SIZE 1 - 1) 0 := by
  have h := c6_checksum_coverage 1 gsZero gsFresh gsFresh [0, 0, 0, 0]
    [0, 0, 0, 0] [0, 0, 0, 0] [1, 2, 3, 4] 0 (by decide) (by decide)
    (by decide) (by decide) (by decide) (by decide) (by decide)
  exact ⟨by decide, h.1, h.2.2.1⟩

/-- C3: on a loaded valid store, an in-range update followed by a load
returns a runtime array identical to the prior array except at the
updated index, which now holds the updated value: the returned array is
exactly the prior array overwritten with the 4 value bytes at the
updated field. -/
theorem c3_update_load_roundtrip (N : Nat) (gs : GlobalState)
    (prm v : List Nat) (i : Nat) (hi : i < N)
    (hbuf : gs.param_buf.length = PARAM_STORE_SIZE N)
    (heep : PARAM_STORE_SIZE N ≤ gs.eeprom.length)
    (hmir : BufMirror N gs)
    (hvalid : classifyRecord N (loadedBuf N gs) = .Valid)
    (hplen : prm.length = 4 * N)
    (hpm : ∀ j, j < 4 * N → prm.getD j 0 = gs.param_buf.getD (3 + j) 0)
    (hv : v.length = 4) :
    (TelemInit N (TelemUpdate N gs (some prm) (Int.ofNat i) v).1
        (TelemUpdate N gs (some prm) (Int.ofNat i) v).2).2 =
      some (writeBytes prm (4 * i) v) := by
  have hreload := telemUpdate_reload N gs prm v i hi hbuf heep hmir
  have hclassify : classifyRecord N
      (loadedBuf N (TelemUpdate N gs (some prm) (Int.ofNat i) v).1) = .Valid := by
    rw [hreload]
    exact telemUpdate_classify_valid N gs prm v i hi hbuf hmir hvalid
  have hsnd : (TelemUpdate N gs (some prm) (Int.ofNat i) v).2 =
      some (writeBytes prm (4 * i) v) := by
    rw [telemUpdate_ofNat_eq]
  rw [hsnd, telemInit_valid_spec N _ _ hclassify]
  have hrb : readBytes (loadedBuf N
      (TelemUpdate N gs (some prm) (Int.ofNat i) v).1) 3 (4 * N) =
      writeBytes prm (4 * i) v := by
    rw [hreload]
    refine ext_getD _ _ ?_ (fun j hj => ?_)
    · rw [length_readBytes, length_writeBytes, hplen]
    · rw [length_readBytes] at hj
      rw [getD_readBytes _ _ _ _ hj, updBuf_getD_param N _ _ _ _ _ hbuf hi hj]
      split_ifs with hw
      · rfl
      · rw [← hpm j hj]
        rcases Nat.lt_or_ge j (4 * i) with hlt | hge
        · rw [getD_writeBytes_lt _ _ _ _ hlt]
        · have h4 : 4 * i + 4 ≤ j := by
            rcases Nat.lt_or_ge j (4 * i + 4) with hlt4 | hge4
            · exact absurd ⟨hge, hlt4⟩ hw
            · exact hge4
          rw [getD_writeBytes_ge _ _ _ _ (by rw [hv]; omega)]
  rw [hrb, writeBytes_full _ _ rfl]

/-- C3 witness: updating parameter 0 of a fresh N = 1 store to the bytes
1,2,3,4 and reloading returns exactly that array. -/
theorem c3_update_load_roundtrip_witness :
    BufMirror 1 gsFresh ∧
      (∀ j, j < 4 * 1 →
        ([0, 0, 0, 0] : List Nat).getD j 0 = gsFresh.param_buf.getD (3 + j) 0) ∧
      (TelemInit 1 (TelemUpdate 1 gsFresh (some [0, 0, 0, 0]) (Int.ofNat 0)
          [1, 2, 3, 4]).1
        (TelemUpdate 1 gsFresh (some [0, 0, 0, 0]) (Int.ofNat 0)
          [1, 2, 3, 4]).2).2 =
      some (writeBytes [0, 0, 0, 0] (4 * 0) [1, 2, 3, 4]) :=
  ⟨by decide, by decide,
    c3_update_load_roundtrip 1 gsFresh [0, 0, 0, 0] [1, 2, 3, 4] 0 (by decide)
      (by decide) (by decide) (by decide) (by decide) (by decide) (by decide)
      (by decide)⟩

theorem take_set_lt (l : List Nat) (k p v : Nat) (hpk : p < k)
    (hpl : p < l.length) :
    (l.set p v).take k = (l.take k).set p v := by
  refine ext_getD _ _ (by simp [List.length_take, List.length_set])
    (fun j hj => ?_)
  rw [List.length_take, List.length_set] at hj
  have hjk : j < k := by omega
  by_cases hpj : p = j
  · subst hpj
    rw [getD_take _ _ _ hjk, getD_set_self _ _ _ hpl,
      getD_set_self _ _ _ (by rw [List.length_take]; omega)]
  · rw [getD_take _ _ _ hjk, getD_set_ne _ _ _ _ hpj,
      getD_set_ne _ _ _ _ hpj, getD_take _ _ _ hjk]

/-- C7 (amended): flipping one bit of one byte of the parameter region
(offsets 3 ..< 3+4N) of a stored valid record, without updating the
stored checksum bytes, makes the next TelemInit classify the record as
Corrupted — the header is still recognized but the recomputed checksum
no longer matches the stored one — and emit the corruption warning.
The original claim also covered bit flips in the three header bytes
(offsets 0 ..< 3), but those make the header check itself fail, so the
record is classified Uninitialized, not Corrupted; see the
counterexample. -/
theorem c7_param_bit_flip_corrupts (N : Nat) (gs : GlobalState)
    (prm : List Nat) (p k : Nat)
    (hvalid : classifyRecord N (loadedBuf N gs) = .Valid)
    (heep : PARAM_STORE_SIZE N ≤ gs.eeprom.length)
    (hp3 : 3 ≤ p) (hpN : p < 3 + 4 * N) (hk : k < 8)
    (hbyte : gs.eeprom.getD p 0 < 256) :
    classifyRecord N (loadedBuf N
        { gs with eeprom := gs.eeprom.set p (gs.eeprom.getD p 0 ^^^ 2 ^ k) }) =
        .Corrupted ∧
      (TelemInit N
          { gs with eeprom := gs.eeprom.set p (gs.eeprom.getD p 0 ^^^ 2 ^ k) }
          (some prm)).1.msgs =
        gs.msgs ++ ["Parameter storage corrupted, resetting...", "done.\n"] := by
  have hsz : PARAM_STORE_SIZE N = 3 + 4 * N + 2 := rfl
  obtain ⟨h0, h1, h2, hchk⟩ := classifyRecord_valid_elim N _ hvalid
  have hpe : p < gs.eeprom.length := by omega
  have hl' : loadedBuf N
      { gs with eeprom := gs.eeprom.set p (gs.eeprom.getD p 0 ^^^ 2 ^ k) } =
      (loadedBuf N gs).set p (gs.eeprom.getD p 0 ^^^ 2 ^ k) := by
    refine ext_getD _ _
      (by rw [loadedBuf, length_readBytes, List.length_set, loadedBuf,
        length_readBytes]) (fun j hj => ?_)
    rw [loadedBuf, length_readBytes] at hj
    rw [loadedBuf, getD_readBytes _ _ _ _ hj, Nat.zero_add]
    by_cases hpj : p = j
    · subst hpj
      rw [getD_set_self _ _ _ hpe,
        getD_set_self _ _ _ (by rw [loadedBuf, length_readBytes]; omega)]
    · rw [getD_set_ne _ _ _ _ hpj, getD_set_ne _ _ _ _ hpj, loadedBuf,
        getD_readBytes _ _ _ _ hj, Nat.zero_add]
  have hhdr : ∀ t, t < 3 → (loadedBuf N
      { gs with eeprom := gs.eeprom.set p (gs.eeprom.getD p 0 ^^^ 2 ^ k) }).getD
        t 0 = (loadedBuf N gs).getD t 0 := fun t ht => by
    rw [hl', getD_set_ne _ _ _ _ (by omega)]
  have hst : ∀ t, 3 + 4 * N ≤ t → (loadedBuf N
      { gs with eeprom := gs.eeprom.set p (gs.eeprom.getD p 0 ^^^ 2 ^ k) }).getD
        t 0 = (loadedBuf N gs).getD t 0 := fun t ht => by
    rw [hl', getD_set_ne _ _ _ _ (by omega)]
  have htk : (loadedBuf N
      { gs with eeprom := gs.eeprom.set p (gs.eeprom.getD p 0 ^^^ 2 ^ k) }).take
        (3 + 4 * N) =
      ((loadedBuf N gs).take (3 + 4 * N)).set p (gs.eeprom.getD p 0 ^^^ 2 ^ k) := by
    rw [hl', take_set_lt _ _ _ _ hpN (by rw [loadedBuf, length_readBytes]; omega)]
  have hplen' : p < ((loadedBuf N gs).take (3 + 4 * N)).length := by
    rw [List.length_take, loadedBuf, length_readBytes]; omega
  have hgd : ((loadedBuf N gs).take (3 + 4 * N)).getD p 0 = gs.eeprom.getD p 0 := by
    rw [getD_take _ _ _ hpN, loadedBuf, getD_readBytes _ _ _ _ (by omega),
      Nat.zero_add]
  have hne := fletcher16_set_flip_ne ((loadedBuf N gs).take (3 + 4 * N)) p k
    hplen' (by rw [hgd]; exact hbyte) hk
  rw [hgd] at hne
  have hcor : classifyRecord N (loadedBuf N
      { gs with eeprom := gs.eeprom.set p (gs.eeprom.getD p 0 ^^^ 2 ^ k) }) =
      .Corrupted := by
    rw [classifyRecord,
      if_neg (by
        simp only [Bool.or_eq_true, bne_iff_ne, ne_eq, not_or, not_not]
        exact ⟨⟨by rw [hhdr 0 (by omega)]; exact h0,
          by rw [hhdr 1 (by omega)]; exact h1⟩,
          by rw [hhdr 2 (by omega)]; exact h2⟩),
      if_pos (by
        simp only [bne_iff_ne, ne_eq]
        rw [htk, hst _ (by rw [size_sub2]),
          hst _ (by rw [size_sub1]; omega), ← hchk]
        exact hne)]
  exact ⟨hcor, telemInit_corrupted_msgs N _ prm hcor⟩

/-- C7 witness: flipping bit 0 of the first parameter byte (offset 3) of
a fresh valid record makes the next load classify it Corrupted. -/
theorem c7_param_bit_flip_corrupts_witness :
    classifyRecord 1 (loadedBuf 1 gsFresh) = .Valid ∧
      classifyRecord 1 (loadedBuf 1
        { gsFresh with
          eeprom := gsFresh.eeprom.set 3 (gsFresh.eeprom.getD 3 0 ^^^ 2 ^ 0) }) =
        .Corrupted :=
  ⟨by decide,
    (c7_param_bit_flip_corrupts 1 gsFresh [0, 0, 0, 0] 3 0 (by decide)
      (by decide) (by decide) (by decide) (by decide) (by decide)).1⟩

/-- C7 counterexample: the claim as stated covers every bit position in
the header and parameter bytes 0 ..< 3+4N, but flipping bit 0 of header
byte 0 of a stored valid record (66 becomes 67) makes the header check
fail, so the next load classifies the record Uninitialized, not
Corrupted. -/
theorem c7_header_flip_counterexample :
    classifyRecord 1 (loadedBuf 1 gsFresh) = .Valid ∧
      classifyRecord 1 (loadedBuf 1
        { gsFresh with
          eeprom := gsFresh.eeprom.set 0 (gsFresh.eeprom.getD 0 0 ^^^ 2 ^ 0) }) =
        .Uninitialized := by
  exact ⟨by decide, by decide⟩

end UaSpaaro
